import Mathlib

/-!
Verification of the DeepCode frontend design-token and step-gate core.

The design-token consumption code is embedded from
`src/frontend/src/design-system/tokens.ts` (the `tokens` object and
`cssVariables`) and `src/frontend/src/design-system/BaseButton.tsx`
(`intentToColor` and the `BaseButton` style object).  Parts of the core that
the provided sources only reference (the `ui/design_tokens.json` document,
`TokenStore.load`, and the `GateStatusMachine`) are modelled from the spec and
marked as such on their definitions.
-/

namespace DeepCode

/-- Color group of the design-token document, with the fields the frontend
sources access (`tokens.color.primary`, `tokens.color.primary_text`, ...). -/
structure ColorTokens where
  primary : String
  primary_text : String
  secondary : String
  secondary_text : String
  surface : String
  background : String
  border : String
  danger : String
deriving DecidableEq, Repr

/-- Spacing group of the design-token document. -/
structure SpacingTokens where
  sm : String
  md : String
  lg : String
deriving DecidableEq, Repr

/-- Typography group of the design-token document. -/
structure TypographyTokens where
  font_family : String
  font_size_md : String
  font_weight_semibold : String
deriving DecidableEq, Repr

/-- Radius group of the design-token document. -/
structure RadiusTokens where
  md : String
  lg : String
deriving DecidableEq, Repr

/-- Shadow group of the design-token document. -/
structure ShadowTokens where
  soft : String
deriving DecidableEq, Repr

/-- The typed accessor surface over a loaded token document: the shape of the
`tokens` object exported by `design-system/tokens.ts` (`typeof designTokens`).
Fields are exactly the groups and names the frontend sources read. -/
structure DesignTokens where
  color : ColorTokens
  spacing : SpacingTokens
  typography : TypographyTokens
  radius : RadiusTokens
  shadow : ShadowTokens
deriving DecidableEq, Repr

/-- Modelled from the spec: the repository file `ui/design_tokens.json` is not
among the provided sources, so the loaded document is reconstructed from the
spec (groups `color`, `spacing`, `typography`, `radius`, `shadow`; pinned
values `color.primary = "#2563EB"` and `color.primary_text = "#FFFFFF"`) and
from the token names the frontend sources access.  Unpinned values are
representative placeholders; no theorem depends on them beyond concreteness. -/
def designTokens : DesignTokens where
  color :=
    { primary := "#2563EB"
      primary_text := "#FFFFFF"
      secondary := "#64748B"
      secondary_text := "#334155"
      surface := "#F8FAFC"
      background := "#F1F5F9"
      border := "#E2E8F0"
      danger := "#DC2626" }
  spacing := { sm := "8px", md := "16px", lg := "24px" }
  typography :=
    { font_family := "Inter, sans-serif"
      font_size_md := "16px"
      font_weight_semibold := "600" }
  radius := { md := "8px", lg := "12px" }
  shadow := { soft := "0 2px 8px rgba(15, 23, 42, 0.08)" }

/-- The enumeration of one token object as `group -> (name -> value)` pairs, in
the member order JavaScript's `Object.entries` observes on the imported JSON
object.  This is the document view of the typed `tokens` object. -/
def toDocument (t : DesignTokens) : List (String × List (String × String)) :=
  [("color",
     [("primary", t.color.primary), ("primary_text", t.color.primary_text),
      ("secondary", t.color.secondary), ("secondary_text", t.color.secondary_text),
      ("surface", t.color.surface), ("background", t.color.background),
      ("border", t.color.border), ("danger", t.color.danger)]),
   ("spacing", [("sm", t.spacing.sm), ("md", t.spacing.md), ("lg", t.spacing.lg)]),
   ("typography",
     [("font_family", t.typography.font_family),
      ("font_size_md", t.typography.font_size_md),
      ("font_weight_semibold", t.typography.font_weight_semibold)]),
   ("radius", [("md", t.radius.md), ("lg", t.radius.lg)]),
   ("shadow", [("soft", t.shadow.soft)])]

/-- Reading key `k` from a JavaScript object built by a sequence of property
writes recorded in list order: the last write to `k` wins. -/
def lookupLast (k : String) : List (String × α) → Option α
  | [] => none
  | (a, v) :: rest =>
    match lookupLast k rest with
    | some r => some r
    | none => if a = k then some v else none

/-- Embedding of `cssVariables()` from `design-system/tokens.ts`: for each
group and each token of the group, write `--dc-<group>-<name> := value` into
the result object, in iteration order. -/
def cssVariables (doc : List (String × List (String × String))) :
    List (String × String) :=
  (doc.map (fun g => g.2.map (fun t => ("--dc-" ++ g.1 ++ "-" ++ t.1, t.2)))).flatten

/-- All `(group, name, value)` triples of a document, in iteration order. -/
def flattenTriples (doc : List (String × List (String × String))) :
    List (String × String × String) :=
  (doc.map (fun g => g.2.map (fun t => (g.1, t.1, t.2)))).flatten

theorem lookupLast_eq_none {α : Type} (k : String) (l : List (String × α))
    (h : k ∉ l.map Prod.fst) : lookupLast k l = none := by
  induction l with
  | nil => rfl
  | cons p rest ih =>
    obtain ⟨a, v⟩ := p
    simp only [List.map_cons, List.mem_cons, not_or] at h
    simp [lookupLast, ih h.2, Ne.symm h.1]

theorem lookupLast_of_nodup {α : Type} (k : String) (v : α)
    (l : List (String × α)) (hnd : (l.map Prod.fst).Nodup)
    (hm : (k, v) ∈ l) : lookupLast k l = some v := by
  induction l with
  | nil => cases hm
  | cons p rest ih =>
    obtain ⟨a, w⟩ := p
    simp only [List.map_cons, List.nodup_cons] at hnd
    rcases List.mem_cons.mp hm with h | h
    · rw [Prod.mk.injEq] at h
      obtain ⟨h1, h2⟩ := h
      subst h1
      subst h2
      simp [lookupLast, lookupLast_eq_none k rest hnd.1]
    · simp [lookupLast, ih hnd.2 h]

theorem cssVariables_eq_map (doc : List (String × List (String × String))) :
    cssVariables doc =
      (flattenTriples doc).map
        (fun e => ("--dc-" ++ e.1 ++ "-" ++ e.2.1, e.2.2)) := by
  simp only [cssVariables, flattenTriples, List.map_flatten, List.map_map]
  congr 1
  congr 1
  funext g
  simp [Function.comp, List.map_map]

/-- C1: every `(group, name, value)` token of the loaded document appears in
the `cssVariables` export under key `--dc-<group>-<name>` with exactly the
source value, and every key of the export has this form.  The hypothesis — the
generated keys are pairwise distinct — holds for the loaded document (group
names contain no hyphen and `(group, name)` pairs are unique). -/
theorem cssVariables_exact (doc : List (String × List (String × String)))
    (h : ((cssVariables doc).map Prod.fst).Nodup) :
    (∀ e ∈ flattenTriples doc,
        lookupLast ("--dc-" ++ e.1 ++ "-" ++ e.2.1) (cssVariables doc) =
          some e.2.2) ∧
    (∀ p ∈ cssVariables doc,
        ∃ e ∈ flattenTriples doc, p.1 = "--dc-" ++ e.1 ++ "-" ++ e.2.1) := by
  constructor
  · intro e he
    apply lookupLast_of_nodup _ _ _ h
    rw [cssVariables_eq_map]
    exact List.mem_map.mpr ⟨e, he, rfl⟩
  · intro p hp
    rw [cssVariables_eq_map] at hp
    rcases List.mem_map.mp hp with ⟨e, he, hpe⟩
    exact ⟨e, he, by rw [← hpe]⟩

/-- Witness for C1 at the loaded token document: the exported key set is
collision-free, and the pinned token `color.primary` is exported unmodified. -/
theorem cssVariables_exact_witness :
    lookupLast "--dc-color-primary" (cssVariables (toDocument designTokens)) =
      some "#2563EB" :=
  (cssVariables_exact (toDocument designTokens) (by decide)).1
    ("color", "primary", "#2563EB") (by decide)

/-- The background and text color pair a button intent selects; field names
follow the `intentToColor` record of `BaseButton.tsx`. -/
structure Palette where
  background : String
  color : String
deriving DecidableEq, Repr

/-- Embedding of the `intentToColor` record of `BaseButton.tsx`: an object
literal with exactly the keys `primary`, `secondary` and `danger`, each bound
to a palette read from the token store. -/
def intentToColor (t : DesignTokens) : List (String × Palette) :=
  [("primary", { background := t.color.primary, color := t.color.primary_text }),
   ("secondary", { background := t.color.surface, color := t.color.secondary_text }),
   ("danger", { background := t.color.danger, color := t.color.primary_text })]

/-- Reading `intentToColor[intent]` with an arbitrary string key: a present
key yields its palette, any other key yields nothing. -/
def paletteFor (t : DesignTokens) (intent : String) : Option Palette :=
  lookupLast intent (intentToColor t)

/-- The closed `Intent` union type of `BaseButton.tsx`. -/
inductive Intent where
  | primary
  | secondary
  | danger
deriving DecidableEq, Repr

/-- The string key a typed `Intent` value denotes. -/
def intentKey : Intent → String
  | .primary => "primary"
  | .secondary => "secondary"
  | .danger => "danger"

/-- Typed record access `intentToColor[intent]` for a value of the closed
`Intent` union: every such key is statically present in the record. -/
def paletteOf (t : DesignTokens) : Intent → Palette
  | .primary => { background := t.color.primary, color := t.color.primary_text }
  | .secondary => { background := t.color.surface, color := t.color.secondary_text }
  | .danger => { background := t.color.danger, color := t.color.primary_text }

theorem paletteOf_eq_paletteFor (t : DesignTokens) (i : Intent) :
    paletteFor t (intentKey i) = some (paletteOf t i) := by
  cases i <;> rfl

/-- A JavaScript value stored in a style object: a string, a number, or NaN
(what `parseInt` returns on input without leading digits). -/
inductive JSVal where
  | str (v : String)
  | num (v : Int)
  | nan
deriving DecidableEq, Repr

/-- JavaScript `parseInt(s, 10)` restricted to the forms the sources feed it:
reads the leading decimal digits of the string and yields NaN when there are
none. -/
def jsParseInt (s : String) : JSVal :=
  let ds := s.data.takeWhile Char.isDigit
  if ds.isEmpty then JSVal.nan
  else JSVal.num (Int.ofNat (ds.foldl (fun a c => a * 10 + (c.toNat - 48)) 0))

/-- Embedding of the style object literal of `BaseButton`: the token-derived
properties are written in source order, then the caller-supplied `style`
object is spread last, so caller entries overwrite token-derived ones.  The
`intent` prop defaults to `primary` when absent. -/
def BaseButton (t : DesignTokens) (intent : Option Intent)
    (style : List (String × JSVal)) : List (String × JSVal) :=
  let palette := paletteOf t (intent.getD Intent.primary)
  [("background", JSVal.str palette.background),
   ("color", JSVal.str palette.color),
   ("borderRadius", JSVal.str t.radius.md),
   ("border", JSVal.str ("1px solid " ++ t.color.border)),
   ("padding", JSVal.str (t.spacing.sm ++ " " ++ t.spacing.lg)),
   ("fontFamily", JSVal.str t.typography.font_family),
   ("fontSize", JSVal.str t.typography.font_size_md),
   ("fontWeight", jsParseInt t.typography.font_weight_semibold),
   ("boxShadow", JSVal.str t.shadow.soft),
   ("cursor", JSVal.str "pointer"),
   ("transition", JSVal.str "transform 0.2s ease, box-shadow 0.2s ease")]
  ++ style

/-- C2: the palette lookup returns exactly the fixed table — primary maps to
(color.primary, color.primary_text), secondary to (color.surface,
color.secondary_text), danger to (color.danger, color.primary_text) — with
values taken from the token store. -/
theorem paletteFor_fixed_table (t : DesignTokens) :
    paletteFor t "primary" =
        some { background := t.color.primary, color := t.color.primary_text } ∧
    paletteFor t "secondary" =
        some { background := t.color.surface, color := t.color.secondary_text } ∧
    paletteFor t "danger" =
        some { background := t.color.danger, color := t.color.primary_text } :=
  ⟨rfl, rfl, rfl⟩

/-- C4: for every intent string outside the closed enumeration, the palette
lookup yields nothing — it fails instead of falling back to a default color. -/
theorem paletteFor_unknown_intent (t : DesignTokens) (intent : String)
    (h1 : intent ≠ "primary") (h2 : intent ≠ "secondary")
    (h3 : intent ≠ "danger") : paletteFor t intent = none := by
  simp [paletteFor, intentToColor, lookupLast, Ne.symm h1, Ne.symm h2, Ne.symm h3]

/-- Witness for C4 at the intent string `info` from the spec. -/
theorem paletteFor_unknown_intent_witness :
    paletteFor designTokens "info" = none :=
  paletteFor_unknown_intent designTokens "info" (by decide) (by decide) (by decide)

/-- C7: the two read interfaces over a resolved token set agree bit-for-bit:
each typed accessor field `tokens.<group>.<name>` equals the value the
variable export stores under `--dc-<group>-<name>`. -/
theorem typed_and_variable_views_agree (t : DesignTokens) :
    lookupLast "--dc-color-primary" (cssVariables (toDocument t)) = some t.color.primary ∧
    lookupLast "--dc-color-primary_text" (cssVariables (toDocument t)) = some t.color.primary_text ∧
    lookupLast "--dc-color-secondary" (cssVariables (toDocument t)) = some t.color.secondary ∧
    lookupLast "--dc-color-secondary_text" (cssVariables (toDocument t)) = some t.color.secondary_text ∧
    lookupLast "--dc-color-surface" (cssVariables (toDocument t)) = some t.color.surface ∧
    lookupLast "--dc-color-background" (cssVariables (toDocument t)) = some t.color.background ∧
    lookupLast "--dc-color-border" (cssVariables (toDocument t)) = some t.color.border ∧
    lookupLast "--dc-color-danger" (cssVariables (toDocument t)) = some t.color.danger ∧
    lookupLast "--dc-spacing-sm" (cssVariables (toDocument t)) = some t.spacing.sm ∧
    lookupLast "--dc-spacing-md" (cssVariables (toDocument t)) = some t.spacing.md ∧
    lookupLast "--dc-spacing-lg" (cssVariables (toDocument t)) = some t.spacing.lg ∧
    lookupLast "--dc-typography-font_family" (cssVariables (toDocument t)) = some t.typography.font_family ∧
    lookupLast "--dc-typography-font_size_md" (cssVariables (toDocument t)) = some t.typography.font_size_md ∧
    lookupLast "--dc-typography-font_weight_semibold" (cssVariables (toDocument t)) = some t.typography.font_weight_semibold ∧
    lookupLast "--dc-radius-md" (cssVariables (toDocument t)) = some t.radius.md ∧
    lookupLast "--dc-radius-lg" (cssVariables (toDocument t)) = some t.radius.lg ∧
    lookupLast "--dc-shadow-soft" (cssVariables (toDocument t)) = some t.shadow.soft :=
  ⟨rfl, rfl, rfl, rfl, rfl, rfl, rfl, rfl, rfl, rfl, rfl, rfl, rfl, rfl, rfl, rfl, rfl⟩

/-- C9 counterexample: a caller-supplied `style` prop is spread after the
token-derived properties, so it overrides them — the descriptor's background
is not determined by the intent palette and structural tokens alone. -/
theorem BaseButton_style_override_counterexample :
    lookupLast "background"
        (BaseButton designTokens (some Intent.primary)
          [("background", JSVal.str "red")]) =
      some (JSVal.str "red") ∧
    (paletteOf designTokens Intent.primary).background ≠ "red" := by
  decide

/-- C9 (amended): absent a caller `style` override, every token-derived field
of the `BaseButton` style descriptor equals the corresponding palette or
structural token value, for every intent. -/
theorem BaseButton_style_fields (t : DesignTokens) (i : Intent) :
    lookupLast "background" (BaseButton t (some i) []) =
        some (JSVal.str (paletteOf t i).background) ∧
    lookupLast "color" (BaseButton t (some i) []) =
        some (JSVal.str (paletteOf t i).color) ∧
    lookupLast "borderRadius" (BaseButton t (some i) []) =
        some (JSVal.str t.radius.md) ∧
    lookupLast "padding" (BaseButton t (some i) []) =
        some (JSVal.str (t.spacing.sm ++ " " ++ t.spacing.lg)) ∧
    lookupLast "fontFamily" (BaseButton t (some i) []) =
        some (JSVal.str t.typography.font_family) ∧
    lookupLast "fontSize" (BaseButton t (some i) []) =
        some (JSVal.str t.typography.font_size_md) ∧
    lookupLast "fontWeight" (BaseButton t (some i) []) =
        some (jsParseInt t.typography.font_weight_semibold) ∧
    lookupLast "boxShadow" (BaseButton t (some i) []) =
        some (JSVal.str t.shadow.soft) :=
  ⟨rfl, rfl, rfl, rfl, rfl, rfl, rfl, rfl⟩

/-- C10: calling `BaseButton` without an `intent` prop does not fail: the
intent silently defaults to `primary` and the descriptor renders with the
primary palette. -/
theorem BaseButton_default_intent (t : DesignTokens) :
    BaseButton t none [] = BaseButton t (some Intent.primary) [] ∧
    lookupLast "background" (BaseButton t none []) =
        some (JSVal.str t.color.primary) ∧
    lookupLast "color" (BaseButton t none []) =
        some (JSVal.str t.color.primary_text) :=
  ⟨rfl, rfl, rfl⟩

/-- Modelled from the spec: the approval decision nested in a clean gate; the
GateStatusMachine has no implementation among the provided sources. -/
inductive ApprovalDecision where
  | pending
  | approved
  | rejected
deriving DecidableEq, Repr

/-- Modelled from the spec: a step gate is either `dirty` (no decision exists,
written `dirty[none]`) or `clean` with a nested approval decision. -/
inductive GateState where
  | dirty
  | clean (decision : ApprovalDecision)
deriving DecidableEq, Repr

/-- Gate events of the spec's gate-event interface. -/
inductive GateEvent where
  | workCompleted
  | userApproves
  | userRejects
  | workInvalidated
deriving DecidableEq, Repr

/-- Error reported for an illegal gate transition. -/
inductive GateError where
  | InvalidGateTransition
deriving DecidableEq, Repr

/-- Modelled from the spec: the GateStatusMachine transition table.  Legal
transitions are `dirty --workCompleted--> clean[pending]`,
`clean[pending] --userApproves--> clean[approved]` (terminal),
`clean[pending] --userRejects--> dirty`, and
`clean --workInvalidated--> dirty` except from the terminal
`clean[approved]`.  Every other pair fails with `InvalidGateTransition`. -/
def transition : GateState → GateEvent → Except GateError GateState
  | GateState.dirty, GateEvent.workCompleted =>
      Except.ok (GateState.clean ApprovalDecision.pending)
  | GateState.clean ApprovalDecision.pending, GateEvent.userApproves =>
      Except.ok (GateState.clean ApprovalDecision.approved)
  | GateState.clean ApprovalDecision.pending, GateEvent.userRejects =>
      Except.ok GateState.dirty
  | GateState.clean ApprovalDecision.pending, GateEvent.workInvalidated =>
      Except.ok GateState.dirty
  | GateState.clean ApprovalDecision.rejected, GateEvent.workInvalidated =>
      Except.ok GateState.dirty
  | _, _ => Except.error GateError.InvalidGateTransition

/-- Applying an event to a gate keeps the prior state when the transition is
illegal: a failed transition must not mutate state. -/
def applyEvent (s : GateState) (e : GateEvent) : GateState :=
  match transition s e with
  | Except.ok s2 => s2
  | Except.error _ => s

/-- C3: from `dirty[none]`, `workCompleted` yields `clean[pending]`;
`userApproves` then yields the terminal `clean[approved]`; a second
`userApproves` fails with `InvalidGateTransition` and the gate state is
unchanged; indeed no event at all leaves the terminal state. -/
theorem gate_approval_path :
    transition GateState.dirty GateEvent.workCompleted =
        Except.ok (GateState.clean ApprovalDecision.pending) ∧
    transition (GateState.clean ApprovalDecision.pending) GateEvent.userApproves =
        Except.ok (GateState.clean ApprovalDecision.approved) ∧
    transition (GateState.clean ApprovalDecision.approved) GateEvent.userApproves =
        Except.error GateError.InvalidGateTransition ∧
    applyEvent (GateState.clean ApprovalDecision.approved) GateEvent.userApproves =
        GateState.clean ApprovalDecision.approved ∧
    (∀ e, transition (GateState.clean ApprovalDecision.approved) e =
        Except.error GateError.InvalidGateTransition) :=
  ⟨rfl, rfl, rfl, rfl, fun e => by cases e <;> rfl⟩

/-- C8: from `clean[pending]`, `userRejects` yields `dirty` — the decision is
discarded, not retained: the successor is not `clean` with any decision. -/
theorem gate_reject_clears_decision :
    transition (GateState.clean ApprovalDecision.pending) GateEvent.userRejects =
        Except.ok GateState.dirty ∧
    (∀ d, transition (GateState.clean ApprovalDecision.pending) GateEvent.userRejects ≠
        Except.ok (GateState.clean d)) :=
  ⟨rfl, fun d => by cases d <;> simp [transition]⟩

/-- A member value of one group object in the raw token document: a string,
or any other JSON shape. -/
inductive JsonValue where
  | str (s : String)
  | other
deriving DecidableEq, Repr

/-- A top-level value of the raw token document: an object of members, or any
non-object JSON value. -/
inductive GroupValue where
  | obj (fields : List (String × JsonValue))
  | nonObj
deriving DecidableEq, Repr

/-- Error reported for a malformed token document. -/
inductive TokenError where
  | InvalidTokenDocument
deriving DecidableEq, Repr

/-- Reads one group object as a name-to-string mapping; fails on any member
whose value is not a string. -/
def parseGroup : List (String × JsonValue) → Option (List (String × String))
  | [] => some []
  | (n, JsonValue.str v) :: rest => (parseGroup rest).map (fun r => (n, v) :: r)
  | (_, JsonValue.other) :: _ => none

/-- Reads all groups of a document; fails on a non-object group, a non-string
member, or an empty group. -/
def loadGroups : List (String × GroupValue) →
    Option (List (String × List (String × String)))
  | [] => some []
  | (g, GroupValue.obj fields) :: rest =>
    match parseGroup fields with
    | some parsed =>
      if parsed.isEmpty then none
      else (loadGroups rest).map (fun r => (g, parsed) :: r)
    | none => none
  | (_, GroupValue.nonObj) :: _ => none

/-- All `(group, name)` pairs of a loaded store, in iteration order. -/
def flattenPairs (store : List (String × List (String × String))) :
    List (String × String) :=
  (store.map (fun g => g.2.map (fun tkn => (g.1, tkn.1)))).flatten

/-- Modelled from the spec: `TokenStore.load` is described by the spec and
referenced by the repository README, but its implementation is not among the
provided sources.  Per the spec contract, every group must be a mapping from
string names to string values, no group may be empty, and no `(group, name)`
pair may occur twice; any violation fails with `InvalidTokenDocument`. -/
def load (doc : List (String × GroupValue)) :
    Except TokenError (List (String × List (String × String))) :=
  match loadGroups doc with
  | none => Except.error TokenError.InvalidTokenDocument
  | some store =>
    if (flattenPairs store).Nodup then Except.ok store
    else Except.error TokenError.InvalidTokenDocument

/-- A group value that is a mapping from string names to string values. -/
def groupIsStringMap : GroupValue → Prop
  | GroupValue.obj fields => ∀ p ∈ fields, ∃ s, p.2 = JsonValue.str s
  | GroupValue.nonObj => False

/-- The document has a group that is not a string-to-string mapping. -/
def hasNonStringMapGroup (doc : List (String × GroupValue)) : Prop :=
  ∃ p ∈ doc, ¬ groupIsStringMap p.2

/-- The document contains an empty group. -/
def hasEmptyGroup (doc : List (String × GroupValue)) : Prop :=
  ∃ g, (g, GroupValue.obj []) ∈ doc

/-- All `(group, name)` pairs named by the raw document's group objects. -/
def allPairs (doc : List (String × GroupValue)) : List (String × String) :=
  (doc.map (fun p =>
    match p.2 with
    | GroupValue.obj fields => fields.map (fun f => (p.1, f.1))
    | GroupValue.nonObj => [])).flatten

/-- The document mentions some `(group, name)` pair twice. -/
def hasDuplicatePair (doc : List (String × GroupValue)) : Prop :=
  ¬ (allPairs doc).Nodup

theorem parseGroup_some_iff (fields : List (String × JsonValue)) :
    (∃ l, parseGroup fields = some l) ↔
      ∀ p ∈ fields, ∃ s, p.2 = JsonValue.str s := by
  induction fields with
  | nil => simp [parseGroup]
  | cons p rest ih =>
    obtain ⟨n, jv⟩ := p
    cases jv with
    | str v =>
      simp only [parseGroup, List.forall_mem_cons]
      constructor
      · rintro ⟨l, hl⟩
        rcases Option.map_eq_some'.mp hl with ⟨r, hr, _⟩
        exact ⟨⟨v, rfl⟩, ih.mp ⟨r, hr⟩⟩
      · rintro ⟨_, hrest⟩
        rcases ih.mpr hrest with ⟨r, hr⟩
        exact ⟨(n, v) :: r, by rw [hr]; rfl⟩
    | other =>
      simp [parseGroup, List.forall_mem_cons]

theorem parseGroup_names (fields : List (String × JsonValue))
    (l : List (String × String)) (h : parseGroup fields = some l) :
    l.map Prod.fst = fields.map Prod.fst := by
  induction fields generalizing l with
  | nil =>
    simp only [parseGroup, Option.some.injEq] at h
    rw [← h]
    simp
  | cons p rest ih =>
    obtain ⟨n, jv⟩ := p
    cases jv with
    | str v =>
      simp only [parseGroup] at h
      rcases Option.map_eq_some'.mp h with ⟨r, hr, hcons⟩
      rw [← hcons]
      simp [ih r hr]
    | other => simp [parseGroup] at h

theorem loadGroups_some_iff (doc : List (String × GroupValue)) :
    (∃ store, loadGroups doc = some store) ↔
      ¬ hasEmptyGroup doc ∧ ¬ hasNonStringMapGroup doc := by
  induction doc with
  | nil => simp [loadGroups, hasEmptyGroup, hasNonStringMapGroup]
  | cons p rest ih =>
    obtain ⟨g, gv⟩ := p
    cases gv with
    | nonObj =>
      constructor
      · rintro ⟨store, hs⟩
        simp [loadGroups] at hs
      · rintro ⟨_, hmap⟩
        exact absurd
          ⟨(g, GroupValue.nonObj), List.mem_cons_self _ _, by simp [groupIsStringMap]⟩
          hmap
    | obj fields =>
      cases hp : parseGroup fields with
      | none =>
        constructor
        · rintro ⟨store, hs⟩
          simp [loadGroups, hp] at hs
        · rintro ⟨_, hmap⟩
          refine absurd ⟨(g, GroupValue.obj fields), List.mem_cons_self _ _, ?_⟩ hmap
          simp only [groupIsStringMap]
          intro hall
          rcases (parseGroup_some_iff fields).mpr hall with ⟨l, hl⟩
          rw [hp] at hl
          cases hl
      | some parsed =>
        cases parsed with
        | nil =>
          have hfields : fields = [] := by
            have hnm := parseGroup_names fields [] hp
            simpa using hnm.symm
          constructor
          · rintro ⟨store, hs⟩
            simp [loadGroups, hp] at hs
          · rintro ⟨hempty, _⟩
            exact absurd ⟨g, by rw [← hfields]; exact List.mem_cons_self _ _⟩ hempty
        | cons q qs =>
          have hfields : fields ≠ [] := by
            intro hf
            have hnm := parseGroup_names fields (q :: qs) hp
            rw [hf] at hnm
            simp at hnm
          have hmap : groupIsStringMap (GroupValue.obj fields) := by
            simp only [groupIsStringMap]
            exact (parseGroup_some_iff fields).mp ⟨q :: qs, hp⟩
          constructor
          · rintro ⟨store, hs⟩
            simp only [loadGroups, hp, List.isEmpty_cons, if_neg] at hs
            rcases Option.map_eq_some'.mp (by simpa using hs) with ⟨r, hr, _⟩
            have hrest := ih.mp ⟨r, hr⟩
            refine ⟨?_, ?_⟩
            · rintro ⟨g2, hmem⟩
              rcases List.mem_cons.mp hmem with he | he
              · have : GroupValue.obj [] = GroupValue.obj fields := congrArg Prod.snd he
                exact hfields (by injection this with h2; exact h2.symm)
              · exact hrest.1 ⟨g2, he⟩
            · rintro ⟨p2, hmem, hnp⟩
              rcases List.mem_cons.mp hmem with he | he
              · rw [he] at hnp
                exact hnp hmap
              · exact hrest.2 ⟨p2, he, hnp⟩
          · rintro ⟨hempty, hnomap⟩
            have hrest : ¬ hasEmptyGroup rest ∧ ¬ hasNonStringMapGroup rest := by
              constructor
              · rintro ⟨g2, hmem⟩
                exact hempty ⟨g2, List.mem_cons_of_mem _ hmem⟩
              · rintro ⟨p2, hmem, hnp⟩
                exact hnomap ⟨p2, List.mem_cons_of_mem _ hmem, hnp⟩
            rcases ih.mpr hrest with ⟨r, hr⟩
            refine ⟨(g, q :: qs) :: r, ?_⟩
            simp [loadGroups, hp, hr]

theorem loadGroups_pairs (doc : List (String × GroupValue))
    (store : List (String × List (String × String)))
    (h : loadGroups doc = some store) : flattenPairs store = allPairs doc := by
  induction doc generalizing store with
  | nil =>
    simp only [loadGroups, Option.some.injEq] at h
    rw [← h]
    rfl
  | cons p rest ih =>
    obtain ⟨g, gv⟩ := p
    cases gv with
    | nonObj => simp [loadGroups] at h
    | obj fields =>
      cases hp : parseGroup fields with
      | none => simp [loadGroups, hp] at h
      | some parsed =>
        simp only [loadGroups, hp] at h
        by_cases he : parsed.isEmpty
        · rw [if_pos he] at h
          cases h
        · rw [if_neg he] at h
          rcases Option.map_eq_some'.mp h with ⟨r, hr, hcons⟩
          have hnames := parseGroup_names fields parsed hp
          have hhead :
              parsed.map (fun tkn => (g, tkn.1)) = fields.map (fun f => (g, f.1)) := by
            have h1 := congrArg (List.map (fun n => (g, n))) hnames
            simpa [List.map_map, Function.comp] using h1
          rw [← hcons]
          simp only [flattenPairs, allPairs, List.map_cons, List.flatten_cons]
          rw [hhead]
          have := ih r hr
          simp only [flattenPairs, allPairs] at this
          rw [this]

/-- C5: loading a token document fails with `InvalidTokenDocument` (and yields
no store) exactly when the document has a duplicate `(group, name)` pair, an
empty group, or a group that is not a mapping from string names to string
values; otherwise the load succeeds. -/
theorem load_validation (doc : List (String × GroupValue)) :
    ((∃ store, load doc = Except.ok store) ↔
      ¬ (hasDuplicatePair doc ∨ hasEmptyGroup doc ∨ hasNonStringMapGroup doc)) ∧
    (load doc = Except.error TokenError.InvalidTokenDocument ↔
      hasDuplicatePair doc ∨ hasEmptyGroup doc ∨ hasNonStringMapGroup doc) := by
  cases hg : loadGroups doc with
  | none =>
    have hbad : hasEmptyGroup doc ∨ hasNonStringMapGroup doc := by
      by_contra hc
      push_neg at hc
      rcases (loadGroups_some_iff doc).mpr ⟨hc.1, hc.2⟩ with ⟨store, hs⟩
      rw [hg] at hs
      cases hs
    constructor
    · constructor
      · rintro ⟨store, hs⟩
        simp [load, hg] at hs
      · intro hcon
        rcases hbad with h | h
        · exact absurd (Or.inr (Or.inl h)) hcon
        · exact absurd (Or.inr (Or.inr h)) hcon
    · constructor
      · intro _
        rcases hbad with h | h
        · exact Or.inr (Or.inl h)
        · exact Or.inr (Or.inr h)
      · intro _
        simp [load, hg]
  | some store =>
    have hpairs := loadGroups_pairs doc store hg
    have hok : ¬ hasEmptyGroup doc ∧ ¬ hasNonStringMapGroup doc :=
      (loadGroups_some_iff doc).mp ⟨store, hg⟩
    by_cases hnd : (flattenPairs store).Nodup
    · have hload : load doc = Except.ok store := by
        simp [load, hg, hnd]
      have hdup : ¬ hasDuplicatePair doc := by
        simp only [hasDuplicatePair, ← hpairs, not_not]
        exact hnd
      constructor
      · constructor
        · rintro _ (h | h | h)
          · exact hdup h
          · exact hok.1 h
          · exact hok.2 h
        · intro _
          exact ⟨store, hload⟩
      · constructor
        · intro he
          rw [hload] at he
          cases he
        · rintro (h | h | h)
          · exact absurd h hdup
          · exact absurd h hok.1
          · exact absurd h hok.2
    · have hload : load doc = Except.error TokenError.InvalidTokenDocument := by
        simp [load, hg, hnd]
      have hdup : hasDuplicatePair doc := by
        simp only [hasDuplicatePair, ← hpairs]
        exact hnd
      constructor
      · constructor
        · rintro ⟨store2, hs⟩
          rw [hload] at hs
          cases hs
        · intro hcon
          exact absurd (Or.inl hdup) hcon
      · constructor
        · intro _
          exact Or.inl hdup
        · intro _
          exact hload

/-- C6: resolution is deterministic — the variable exports computed from two
loads of the same unchanged document are identical, same keys and values. -/
theorem resolve_deterministic (doc : List (String × GroupValue))
    (s1 s2 : List (String × List (String × String)))
    (h1 : load doc = Except.ok s1) (h2 : load doc = Except.ok s2) :
    cssVariables s1 = cssVariables s2 := by
  rw [h1] at h2
  cases h2
  rfl

/-- A small concrete raw token document used to instantiate C6. -/
def sampleDocument : List (String × GroupValue) :=
  [("color",
     GroupValue.obj
       [("primary", JsonValue.str "#2563EB"),
        ("primary_text", JsonValue.str "#FFFFFF")])]

/-- Witness for C6 at a concrete document: both loads succeed with the same
store and the exports coincide. -/
theorem resolve_deterministic_witness :
    cssVariables [("color", [("primary", "#2563EB"), ("primary_text", "#FFFFFF")])] =
      cssVariables [("color", [("primary", "#2563EB"), ("primary_text", "#FFFFFF")])] :=
  resolve_deterministic sampleDocument _ _ rfl rfl

end DeepCode
